import Mathlib

/-!
Verification of the EKGproduct investment-approval backend.

This file gives a shallow embedding, in Lean 4, of the storage layer
(`backend/storage.ts`), the HTTP delete handler (`lib/auth.ts`), and the AI
service adapters (`server/services/prepareAIService.ts`,
`server/services/llmApiService.ts`) of the repository, and proves properties
of the embedded operations.

Modelling conventions:
* Database tables are Lean lists of row structures; an SQL `INSERT` appends,
  an `UPDATE ... WHERE` maps a conditional rewrite over the list, a `DELETE`
  filters, and `SELECT ... ORDER BY` filters and then sorts with a stable
  insertion sort (SQL leaves tie order unspecified, so any sort by the key
  is a faithful model).
* `serial` primary keys are modelled by assigning `max id + 1` on insert.
* Timestamps are `Nat`; decimal amounts are `Int`.
* Asynchronous code is state passing; each `await db...` boundary is one
  atomic action, which lets interleavings of concurrent calls be expressed
  by sequencing the per-call actions in schedule order.
* External HTTP calls and database query outcomes are oracle inputs
  (`Except`/`Option` valued parameters) where a claim concerns failures.
-/

namespace EKG

/-! ## List preliminaries: stable insertion sort and small folds -/

/-- Insert `a` into `l` before the first element `b` with `¬ le b a`
(stable: keeps earlier equal-key elements first). -/
def ordInsert (le : α → α → Bool) (a : α) : List α → List α
  | [] => [a]
  | b :: bs => if le b a then b :: ordInsert le a bs else a :: b :: bs

/-- Stable insertion sort, used to model SQL `ORDER BY`. -/
def ordSort (le : α → α → Bool) : List α → List α
  | [] => []
  | a :: as => ordInsert le a (ordSort le as)

theorem ordInsert_perm (le : α → α → Bool) (a : α) (l : List α) :
    (ordInsert le a l).Perm (a :: l) := by
  induction l with
  | nil => exact List.Perm.refl _
  | cons b bs ih =>
    by_cases h : le b a = true
    · simp only [ordInsert, h, if_pos]
      exact ((ih.cons b).trans (List.Perm.swap a b bs))
    · simp only [ordInsert, h, if_neg, Bool.not_eq_true]
      exact List.Perm.refl _

theorem ordSort_perm (le : α → α → Bool) (l : List α) :
    (ordSort le l).Perm l := by
  induction l with
  | nil => exact List.Perm.refl _
  | cons a as ih =>
    exact (ordInsert_perm le a (ordSort le as)).trans (ih.cons a)

theorem ordInsert_pairwise (le : α → α → Bool)
    (htrans : ∀ a b c, le a b = true → le b c = true → le a c = true)
    (htot : ∀ a b, le a b = true ∨ le b a = true)
    (a : α) (l : List α) :
    l.Pairwise (fun x y => le x y = true) →
      (ordInsert le a l).Pairwise (fun x y => le x y = true) := by
  induction l with
  | nil => intro _; simp [ordInsert]
  | cons b bs ih =>
    intro hl
    obtain ⟨hb, hbs⟩ := List.pairwise_cons.mp hl
    by_cases h : le b a = true
    · simp only [ordInsert, h, if_pos]
      refine List.pairwise_cons.mpr ⟨?_, ih hbs⟩
      intro y hy
      rcases List.mem_cons.mp ((ordInsert_perm le a bs).mem_iff.mp hy) with rfl | hmem
      · exact h
      · exact hb y hmem
    · simp only [ordInsert, h, if_neg, Bool.not_eq_true]
      have ha : le a b = true := (htot a b).resolve_right h
      refine List.pairwise_cons.mpr ⟨?_, List.pairwise_cons.mpr ⟨hb, hbs⟩⟩
      intro y hy
      rcases List.mem_cons.mp hy with rfl | hmem
      · exact ha
      · exact htrans a b y ha (hb y hmem)

theorem ordSort_pairwise (le : α → α → Bool)
    (htrans : ∀ a b c, le a b = true → le b c = true → le a c = true)
    (htot : ∀ a b, le a b = true ∨ le b a = true)
    (l : List α) :
    (ordSort le l).Pairwise (fun x y => le x y = true) := by
  induction l with
  | nil => simp [ordSort]
  | cons a as ih => exact ordInsert_pairwise le htrans htot a _ ih

theorem foldl_max_init_le (l : List Nat) (acc : Nat) : acc ≤ l.foldl max acc := by
  induction l generalizing acc with
  | nil => exact Nat.le_refl _
  | cons x xs ih =>
    exact Nat.le_trans (Nat.le_max_left acc x) (ih (max acc x))

theorem mem_le_foldl_max (l : List Nat) (acc x : Nat) (hx : x ∈ l) :
    x ≤ l.foldl max acc := by
  induction l generalizing acc with
  | nil => cases hx
  | cons y ys ih =>
    rcases List.mem_cons.mp hx with rfl | hx
    · exact Nat.le_trans (Nat.le_max_right acc _) (foldl_max_init_le ys _)
    · exact ih _ hx

/-! ## Sequence generator (`storage.ts`, `getNextSequenceValue`)

One row of the `sequences` table (schema in `lib/auth.ts`): serial id,
unique sequence name, current value, year. -/

structure SeqRow where
  id : Nat
  sequenceName : String
  currentValue : Nat
  year : Nat
deriving DecidableEq, Repr

/-- Digits of a char list read as a base-10 numeral. -/
def digitsToNat (cs : List Char) : Nat :=
  cs.foldl (fun acc c => acc * 10 + (c.toNat - 48)) 0

/-- The year encoded in a sequence name: the regex `_(\d{4})$` from
`getNextSequenceValue`, falling back to the current year. -/
def extractYear (name : String) (currentYear : Nat) : Nat :=
  let cs := name.toList
  if cs.length ≥ 5 then
    let tail := cs.drop (cs.length - 5)
    match tail with
    | '_' :: ds => if ds.all Char.isDigit then digitsToNat ds else currentYear
    | _ => currentYear
  else currentYear

/-- Fresh serial id for the `sequences` table. -/
def freshSeqId (st : List SeqRow) : Nat :=
  ((st.map (·.id)).foldl max 0) + 1

/-- The `SELECT ... WHERE sequenceName = name LIMIT 1` step of
`getNextSequenceValue` (the first `await` of the function). -/
def seqRead (st : List SeqRow) (name : String) : Option SeqRow :=
  st.find? (fun r => decide (r.sequenceName = name))

/-- The write step of `getNextSequenceValue`: given what the read step saw,
either `UPDATE sequences SET currentValue = existing.currentValue + 1 WHERE
id = existing.id` and return that value, or `INSERT` a fresh row at 1 and
return 1. -/
def seqWrite (st : List SeqRow) (name : String) (now : Nat) :
    Option SeqRow → List SeqRow × Nat
  | some r =>
      (st.map (fun s => if s.id = r.id then { s with currentValue := r.currentValue + 1 } else s),
       r.currentValue + 1)
  | none =>
      (st ++ [{ id := freshSeqId st, sequenceName := name,
                currentValue := 1, year := extractYear name now }], 1)

/-- `getNextSequenceValue(sequenceName)` run to completion with no
interleaving: the read step followed by the write step. -/
def getNextSequenceValue (st : List SeqRow) (name : String) (now : Nat) :
    List SeqRow × Nat :=
  seqWrite st name now (seqRead st name)

/-- The value the next non-interleaved call will return. -/
def nextVal (st : List SeqRow) (name : String) : Nat :=
  match seqRead st name with
  | some r => r.currentValue + 1
  | none => 1

/-- `N` successive, non-overlapping calls; returns the final state and the
list of returned values in call order. -/
def runCalls : Nat → List SeqRow → String → Nat → List SeqRow × List Nat
  | 0, st, _, _ => (st, [])
  | n + 1, st, name, now =>
      let p := getNextSequenceValue st name now
      let q := runCalls n p.1 name now
      (q.1, p.2 :: q.2)

/-- Two concurrent calls to `getNextSequenceValue` with the same name under
the interleaving read₁, read₂, write₁, write₂ (both reads happen before
either write — possible because the read and the write are separate `await`
boundaries with no transaction or lock around them). Returns the final
state and the two returned values. -/
def twoCallsReadReadWriteWrite (st : List SeqRow) (name : String) (now : Nat) :
    List SeqRow × Nat × Nat :=
  let l1 := seqRead st name
  let l2 := seqRead st name
  let p1 := seqWrite st name now l1
  let p2 := seqWrite p1.1 name now l2
  (p2.1, p1.2, p2.2)

theorem getNextSequenceValue_snd (st : List SeqRow) (name : String) (now : Nat) :
    (getNextSequenceValue st name now).2 = nextVal st name := by
  unfold getNextSequenceValue nextVal
  cases h : seqRead st name <;> simp [seqWrite]

theorem seqRead_map_preserves (st : List SeqRow) (name : String)
    (f : SeqRow → SeqRow) (hf : ∀ s, (f s).sequenceName = s.sequenceName) :
    seqRead (st.map f) name = (seqRead st name).map f := by
  unfold seqRead
  have hp : ((fun r : SeqRow => decide (r.sequenceName = name)) ∘ f) =
      (fun r : SeqRow => decide (r.sequenceName = name)) := by
    funext s
    simp [Function.comp, hf]
  rw [List.find?_map, hp]

theorem nextVal_after (st : List SeqRow) (name : String) (now : Nat) :
    nextVal (getNextSequenceValue st name now).1 name =
      (getNextSequenceValue st name now).2 + 1 := by
  unfold getNextSequenceValue
  cases h : seqRead st name with
  | some r =>
      simp only [seqWrite]
      have hmap := seqRead_map_preserves st name
        (fun s => if s.id = r.id then { s with currentValue := r.currentValue + 1 } else s)
        (by intro s; by_cases hs : s.id = r.id <;> simp [hs])
      unfold nextVal
      rw [hmap, h]
      simp
  | none =>
      simp only [seqWrite]
      unfold nextVal seqRead
      rw [List.find?_append]
      unfold seqRead at h
      rw [h]
      simp

theorem runCalls_values (N : Nat) (st : List SeqRow) (name : String) (now : Nat) :
    (runCalls N st name now).2 = List.range' (nextVal st name) N := by
  induction N generalizing st with
  | zero => simp [runCalls]
  | succ n ih =>
      have h1 : (runCalls (n + 1) st name now).2 =
          (getNextSequenceValue st name now).2 ::
            (runCalls n (getNextSequenceValue st name now).1 name now).2 := rfl
      rw [h1, ih, nextVal_after, getNextSequenceValue_snd, List.range'_succ]

theorem seqRead_after_some (st : List SeqRow) (name : String) (now : Nat)
    (r : SeqRow) (h : seqRead st name = some r) :
    seqRead (getNextSequenceValue st name now).1 name =
      some { r with currentValue := r.currentValue + 1 } := by
  unfold getNextSequenceValue
  rw [h]
  simp only [seqWrite]
  rw [seqRead_map_preserves st name _
    (by intro s; by_cases hs : s.id = r.id <;> simp [hs]), h]
  simp

/-- Claim C2: a call to `getNextSequenceValue(name)` on a state whose
`sequences` table holds a row for `name` with `currentValue` v stores v+1 in
that row and returns v+1; on a state with no such row it creates a row with
`currentValue` 1 and returns 1; consequently N successive non-overlapping
calls with the same name return the consecutive values
`nextVal, nextVal+1, …` with no gaps or duplicates. -/
theorem C2_getNextSequenceValue_correct (st : List SeqRow) (name : String) (now : Nat) :
    (∀ r, seqRead st name = some r →
      (getNextSequenceValue st name now).2 = r.currentValue + 1 ∧
      seqRead (getNextSequenceValue st name now).1 name =
        some { r with currentValue := r.currentValue + 1 }) ∧
    (seqRead st name = none →
      (getNextSequenceValue st name now).2 = 1 ∧
      (getNextSequenceValue st name now).1 =
        st ++ [{ id := freshSeqId st, sequenceName := name, currentValue := 1,
                 year := extractYear name now }]) ∧
    (∀ N, (runCalls N st name now).2 = List.range' (nextVal st name) N) := by
  refine ⟨?_, ?_, fun N => runCalls_values N st name now⟩
  · intro r h
    refine ⟨?_, seqRead_after_some st name now r h⟩
    unfold getNextSequenceValue
    rw [h]
    rfl
  · intro h
    unfold getNextSequenceValue
    rw [h]
    exact ⟨rfl, rfl⟩

/-- Witness for C2 at a concrete state: the table holds ("INV_2025", 5), so
one call returns 6 and three successive calls return 6, 7, 8. -/
theorem C2_getNextSequenceValue_correct_witness :
    (getNextSequenceValue [⟨1, "INV_2025", 5, 2025⟩] "INV_2025" 7).2 = 6 ∧
    (runCalls 3 [⟨1, "INV_2025", 5, 2025⟩] "INV_2025" 7).2 = [6, 7, 8] := by
  refine ⟨((C2_getNextSequenceValue_correct [⟨1, "INV_2025", 5, 2025⟩] "INV_2025" 7).1
      ⟨1, "INV_2025", 5, 2025⟩ (by decide)).1, ?_⟩
  rw [(C2_getNextSequenceValue_correct [⟨1, "INV_2025", 5, 2025⟩] "INV_2025" 7).2.2 3]
  decide

/-- Claim C3 is violated by the code: `getNextSequenceValue` performs a
`SELECT` followed by a separate `UPDATE` with no transaction, atomic
increment, or row lock, so under the interleaving read₁ read₂ write₁ write₂
two concurrent calls on a table holding ("INV_2025", 5) both return 6 —
duplicate values, where the claim requires the distinct consecutive values
6 and 7. -/
theorem C3_concurrent_calls_duplicate :
    (twoCallsReadReadWriteWrite [⟨1, "INV_2025", 5, 2025⟩] "INV_2025" 0).2 = (6, 6) ∧
    ¬ (twoCallsReadReadWriteWrite [⟨1, "INV_2025", 5, 2025⟩] "INV_2025" 0).2.1 ≠
      (twoCallsReadReadWriteWrite [⟨1, "INV_2025", 5, 2025⟩] "INV_2025" 0).2.2 := by
  decide

/-! ## Core tables (`lib/auth.ts` schema): investment requests, approvals, tasks -/

structure InvestmentRequest where
  id : Nat
  requestId : String
  requesterId : Nat
  amount : Int
  riskLevel : String
  status : String
  currentApprovalStage : Nat
  deletedAt : Option Nat
  createdAt : Nat
  currentApprovalCycle : Nat
deriving DecidableEq, Repr

structure Approval where
  id : Nat
  requestType : String
  requestId : Nat
  stage : Nat
  approverId : Nat
  status : String
  approvalCycle : Nat
  isCurrentCycle : Bool
  createdAt : Nat
deriving DecidableEq, Repr

structure Task where
  id : Nat
  assigneeId : Nat
  requestType : String
  requestId : Nat
  status : String
  completedAt : Option Nat
deriving DecidableEq, Repr

/-- The relational store as seen by the approval and soft-delete operations. -/
structure DB where
  investmentRequests : List InvestmentRequest
  approvals : List Approval
  tasks : List Task
deriving DecidableEq, Repr

/-! ## Approval storage operations (`storage.ts`) -/

/-- An approval row to insert (`InsertApproval`): everything but the serial id. -/
structure InsertApproval where
  requestType : String
  requestId : Nat
  stage : Nat
  approverId : Nat
  status : String
  approvalCycle : Nat
  isCurrentCycle : Bool
deriving DecidableEq, Repr

def freshApprovalId (db : DB) : Nat :=
  ((db.approvals.map (·.id)).foldl max 0) + 1

def insertApprovalRow (ia : InsertApproval) (i : Nat) (now : Nat) : Approval :=
  { id := i, requestType := ia.requestType, requestId := ia.requestId,
    stage := ia.stage, approverId := ia.approverId, status := ia.status,
    approvalCycle := ia.approvalCycle, isCurrentCycle := ia.isCurrentCycle,
    createdAt := now }

/-- `createApproval`: `INSERT INTO approvals ... RETURNING`; the serial
primary key assigns a fresh id. -/
def createApproval (ia : InsertApproval) (now : Nat) (db : DB) : DB × Approval :=
  let row := insertApprovalRow ia (freshApprovalId db) now
  ({ db with approvals := db.approvals ++ [row] }, row)

/-- A partial update (`Partial<InsertApproval>`): absent fields unchanged. -/
structure ApprovalPatch where
  requestType : Option String := none
  requestId : Option Nat := none
  stage : Option Nat := none
  approverId : Option Nat := none
  status : Option String := none
  approvalCycle : Option Nat := none
  isCurrentCycle : Option Bool := none
deriving DecidableEq, Repr

def applyPatch (p : ApprovalPatch) (a : Approval) : Approval :=
  { a with
    requestType := p.requestType.getD a.requestType,
    requestId := p.requestId.getD a.requestId,
    stage := p.stage.getD a.stage,
    approverId := p.approverId.getD a.approverId,
    status := p.status.getD a.status,
    approvalCycle := p.approvalCycle.getD a.approvalCycle,
    isCurrentCycle := p.isCurrentCycle.getD a.isCurrentCycle }

/-- `updateApproval`: `UPDATE approvals SET ... WHERE id = i`. -/
def updateApproval (i : Nat) (p : ApprovalPatch) (db : DB) : DB :=
  { db with approvals := db.approvals.map (fun a => if a.id = i then applyPatch p a else a) }

/-- `deleteApproval`: `DELETE FROM approvals WHERE id = i`. -/
def deleteApproval (i : Nat) (db : DB) : DB :=
  { db with approvals := db.approvals.filter (fun a => decide (a.id ≠ i)) }

/-- The `requestType = rt AND requestId = rid` condition used by the
approval queries. -/
def approvalMatches (rt : String) (rid : Nat) (a : Approval) : Bool :=
  decide (a.requestType = rt) && decide (a.requestId = rid)

/-- The per-row rewrite of `markPreviousCycleApprovalsAsInactive`:
`SET isCurrentCycle = false WHERE requestType = rt AND requestId = rid AND
isCurrentCycle = true`. -/
def markFn (rt : String) (rid : Nat) (a : Approval) : Approval :=
  if approvalMatches rt rid a && a.isCurrentCycle then { a with isCurrentCycle := false } else a

def markPreviousCycleApprovalsAsInactive (rt : String) (rid : Nat) (db : DB) : DB :=
  { db with approvals := db.approvals.map (markFn rt rid) }

/-- `COALESCE(MAX(approvalCycle), 0)` over the request's approval rows. -/
def maxApprovalCycle (rt : String) (rid : Nat) (db : DB) : Nat :=
  ((db.approvals.filter (approvalMatches rt rid)).map (·.approvalCycle)).foldl max 0

/-- `incrementApprovalCycle`: mark the previous cycle inactive, compute
`COALESCE(MAX(approvalCycle), 0) + 1`, store it on the investment request's
`currentApprovalCycle` when the request type is `investment`, and return it. -/
def incrementApprovalCycle (rt : String) (rid : Nat) (db : DB) : DB × Nat :=
  let db1 := markPreviousCycleApprovalsAsInactive rt rid db
  let newCycle := maxApprovalCycle rt rid db1 + 1
  let db2 :=
    if rt = "investment" then
      { db1 with investmentRequests := db1.investmentRequests.map (fun r =>
          if r.id = rid then { r with currentApprovalCycle := newCycle } else r) }
    else db1
  (db2, newCycle)

/-- `ORDER BY stage` key. -/
def stageLe (a b : Approval) : Bool :=
  decide (a.stage ≤ b.stage)

/-- `ORDER BY approvalCycle DESC, stage` key. -/
def cycleDescStageLe (a b : Approval) : Bool :=
  decide (b.approvalCycle < a.approvalCycle) ||
    (decide (a.approvalCycle = b.approvalCycle) && decide (a.stage ≤ b.stage))

def getApprovalsByRequest (rt : String) (rid : Nat) (db : DB) : List Approval :=
  ordSort stageLe (db.approvals.filter (approvalMatches rt rid))

def getCurrentCycleApprovalsByRequest (rt : String) (rid : Nat) (db : DB) : List Approval :=
  ordSort stageLe (db.approvals.filter (fun a => approvalMatches rt rid a && a.isCurrentCycle))

def getAllCycleApprovalsByRequest (rt : String) (rid : Nat) (db : DB) : List Approval :=
  ordSort cycleDescStageLe (db.approvals.filter (approvalMatches rt rid))

/-! ## Facts about `markFn` and `incrementApprovalCycle` -/

theorem markFn_requestType (rt : String) (rid : Nat) (a : Approval) :
    (markFn rt rid a).requestType = a.requestType := by
  unfold markFn; split <;> rfl

theorem markFn_requestId (rt : String) (rid : Nat) (a : Approval) :
    (markFn rt rid a).requestId = a.requestId := by
  unfold markFn; split <;> rfl

theorem markFn_stage (rt : String) (rid : Nat) (a : Approval) :
    (markFn rt rid a).stage = a.stage := by
  unfold markFn; split <;> rfl

theorem markFn_approvalCycle (rt : String) (rid : Nat) (a : Approval) :
    (markFn rt rid a).approvalCycle = a.approvalCycle := by
  unfold markFn; split <;> rfl

theorem markFn_id (rt : String) (rid : Nat) (a : Approval) :
    (markFn rt rid a).id = a.id := by
  unfold markFn; split <;> rfl

theorem approvalMatches_markFn (rt : String) (rid : Nat) (a : Approval) :
    approvalMatches rt rid (markFn rt rid a) = approvalMatches rt rid a := by
  unfold approvalMatches
  rw [markFn_requestType, markFn_requestId]

/-- If the marked row still claims to be in the current cycle, the marking
condition did not fire and the row is unchanged. -/
theorem markFn_current_eq (rt : String) (rid : Nat) (a : Approval)
    (h : (markFn rt rid a).isCurrentCycle = true) : markFn rt rid a = a := by
  unfold markFn at h ⊢
  by_cases hc : (approvalMatches rt rid a && a.isCurrentCycle) = true
  · rw [if_pos hc] at h
    simp at h
  · rw [if_neg hc]

/-- A marked row of the request is never current-cycle. -/
theorem markFn_matching_not_current (rt : String) (rid : Nat) (a : Approval)
    (hm : approvalMatches rt rid a = true) :
    (markFn rt rid a).isCurrentCycle = false := by
  unfold markFn
  cases hc : a.isCurrentCycle
  · rw [if_neg (by simp [hc])]
    exact hc
  · rw [if_pos (by simp [hm, hc])]

theorem maxApprovalCycle_mark (rt : String) (rid : Nat) (db : DB) :
    maxApprovalCycle rt rid (markPreviousCycleApprovalsAsInactive rt rid db) =
      maxApprovalCycle rt rid db := by
  unfold maxApprovalCycle markPreviousCycleApprovalsAsInactive
  simp only
  rw [List.filter_map]
  have h1 : (approvalMatches rt rid ∘ markFn rt rid) = approvalMatches rt rid := by
    funext a
    exact approvalMatches_markFn rt rid a
  rw [h1, List.map_map]
  have h2 : ((fun a : Approval => a.approvalCycle) ∘ markFn rt rid) =
      (fun a : Approval => a.approvalCycle) := by
    funext a
    exact markFn_approvalCycle rt rid a
  rw [h2]

theorem incrementApprovalCycle_approvals (rt : String) (rid : Nat) (db : DB) :
    (incrementApprovalCycle rt rid db).1.approvals =
      (markPreviousCycleApprovalsAsInactive rt rid db).approvals := by
  unfold incrementApprovalCycle
  split <;> rfl

theorem incrementApprovalCycle_invReqs (rid : Nat) (db : DB) :
    (incrementApprovalCycle "investment" rid db).1.investmentRequests =
      db.investmentRequests.map (fun r =>
        if r.id = rid then
          { r with currentApprovalCycle := maxApprovalCycle "investment" rid db + 1 }
        else r) := by
  simp only [incrementApprovalCycle]
  rw [if_pos trivial, maxApprovalCycle_mark]
  rfl

theorem incrementApprovalCycle_invReqs_other (rt : String) (rid : Nat) (db : DB)
    (h : ¬ rt = "investment") :
    (incrementApprovalCycle rt rid db).1.investmentRequests = db.investmentRequests := by
  simp only [incrementApprovalCycle]
  rw [if_neg h]
  rfl

/-! ## Claim C1 -/

def c1approval : Approval :=
  { id := 1, requestType := "investment", requestId := 7, stage := 1,
    approverId := 4, status := "changes_requested", approvalCycle := 1,
    isCurrentCycle := true, createdAt := 0 }

def c1request : InvestmentRequest :=
  { id := 7, requestId := "INV-2025-0007", requesterId := 3,
    amount := 1000000, riskLevel := "low", status := "changes_requested",
    currentApprovalStage := 2, deletedAt := none, createdAt := 0,
    currentApprovalCycle := 5 }

def c1db : DB :=
  { investmentRequests := [c1request],
    approvals := [c1approval],
    tasks := [] }

/-- Claim C1 as stated is false: on a request whose `currentApprovalCycle`
is 5 and `currentApprovalStage` is 2, with one approval row of cycle 1,
`incrementApprovalCycle` returns 2 (one more than the maximum existing
`approvalCycle`), not 5 + 1, and leaves `currentApprovalStage` at 2 rather
than resetting it to 0. -/
theorem C1_counterexample :
    ¬ ((incrementApprovalCycle "investment" 7 c1db).2 = 5 + 1 ∧
       ((incrementApprovalCycle "investment" 7 c1db).1.investmentRequests.find?
          (fun r => decide (r.id = 7))).map (·.currentApprovalStage) = some 0) ∧
    (incrementApprovalCycle "investment" 7 c1db).2 = 2 ∧
    ((incrementApprovalCycle "investment" 7 c1db).1.investmentRequests.find?
        (fun r => decide (r.id = 7))).map (·.currentApprovalStage) = some 2 := by
  decide

/-- Claim C1, amended: `incrementApprovalCycle(rt, rid)` marks every
current-cycle approval row of the request historical; it returns
`max existing approvalCycle + 1` (hence a value strictly greater than every
existing `approvalCycle` of the request, but not necessarily
`currentApprovalCycle + 1`); for requestType `investment` the returned cycle
is stored as the request's `currentApprovalCycle`; and `currentApprovalStage`
is left unchanged (it is not reset to 0 by this function). -/
theorem C1_incrementApprovalCycle_amended (rt : String) (rid : Nat) (db : DB) :
    ((incrementApprovalCycle rt rid db).2 = maxApprovalCycle rt rid db + 1) ∧
    (∀ a ∈ (incrementApprovalCycle rt rid db).1.approvals,
        a.requestType = rt → a.requestId = rid → a.isCurrentCycle = false) ∧
    (∀ a ∈ db.approvals, a.requestType = rt → a.requestId = rid →
        a.approvalCycle < (incrementApprovalCycle rt rid db).2) ∧
    (rt = "investment" →
      ∀ r ∈ (incrementApprovalCycle rt rid db).1.investmentRequests,
        r.id = rid → r.currentApprovalCycle = (incrementApprovalCycle rt rid db).2) ∧
    ((incrementApprovalCycle rt rid db).1.investmentRequests.map
        (fun r => (r.id, r.currentApprovalStage)) =
      db.investmentRequests.map (fun r => (r.id, r.currentApprovalStage))) := by
  have hsnd : (incrementApprovalCycle rt rid db).2 = maxApprovalCycle rt rid db + 1 := by
    show maxApprovalCycle rt rid (markPreviousCycleApprovalsAsInactive rt rid db) + 1 = _
    rw [maxApprovalCycle_mark]
  refine ⟨hsnd, ?_, ?_, ?_, ?_⟩
  · intro a ha hrt hrid
    rw [incrementApprovalCycle_approvals] at ha
    obtain ⟨b, hb, rfl⟩ := List.mem_map.mp ha
    apply markFn_matching_not_current
    unfold approvalMatches
    rw [markFn_requestType] at hrt
    rw [markFn_requestId] at hrid
    simp [hrt, hrid]
  · intro a ha hrt hrid
    rw [hsnd, Nat.lt_succ_iff]
    apply mem_le_foldl_max
    apply List.mem_map.mpr
    exact ⟨a, List.mem_filter.mpr ⟨ha, by unfold approvalMatches; simp [hrt, hrid]⟩, rfl⟩
  · intro hrt r hr hid
    subst hrt
    rw [incrementApprovalCycle_invReqs rid db] at hr
    obtain ⟨r0, hr0, rfl⟩ := List.mem_map.mp hr
    by_cases h0 : r0.id = rid
    · rw [if_pos h0]
      rw [hsnd]
    · rw [if_neg h0] at hid
      exact absurd hid h0
  · by_cases hrt : rt = "investment"
    · subst hrt
      rw [incrementApprovalCycle_invReqs rid db, List.map_map]
      apply List.map_congr_left
      intro r _
      by_cases h0 : r.id = rid <;> simp [Function.comp, h0]
    · rw [incrementApprovalCycle_invReqs_other rt rid db hrt]

/-- Witness for the amended C1 at the concrete database `c1db`: the call
returns 2 and the existing cycle-1 approval row's cycle is below it. -/
theorem C1_incrementApprovalCycle_amended_witness :
    (incrementApprovalCycle "investment" 7 c1db).2 = maxApprovalCycle "investment" 7 c1db + 1 ∧
    c1approval.approvalCycle < (incrementApprovalCycle "investment" 7 c1db).2 := by
  refine ⟨(C1_incrementApprovalCycle_amended "investment" 7 c1db).1, ?_⟩
  exact (C1_incrementApprovalCycle_amended "investment" 7 c1db).2.2.1 c1approval
    (by decide) rfl rfl

/-! ## Claim C4: the one-current-approval-per-stage invariant -/

def sameKey (a b : Approval) : Prop :=
  a.requestType = b.requestType ∧ a.requestId = b.requestId ∧ a.stage = b.stage

instance instDecidableSameKey (a b : Approval) : Decidable (sameKey a b) := by
  unfold sameKey
  infer_instance

theorem sameKey_symm {a b : Approval} (h : sameKey a b) : sameKey b a :=
  ⟨h.1.symm, h.2.1.symm, h.2.2.symm⟩

/-- Two approval rows may not both be current-cycle at the same
(requestType, requestId, stage). -/
def currentKeyRel (a b : Approval) : Prop :=
  a.isCurrentCycle = true → b.isCurrentCycle = true → ¬ sameKey a b

instance instDecidableCurrentKeyRel (a b : Approval) : Decidable (currentKeyRel a b) := by
  unfold currentKeyRel
  infer_instance

/-- The claimed invariant: at most one approval row with
`isCurrentCycle = true` per (requestType, requestId, stage). -/
def NoDupCurrent (db : DB) : Prop :=
  db.approvals.Pairwise currentKeyRel

instance instDecidableNoDupCurrent (db : DB) : Decidable (NoDupCurrent db) := by
  unfold NoDupCurrent
  infer_instance

/-- Strengthened induction invariant: serial ids are distinct, and the
claimed invariant holds. -/
def ApprovalInv (l : List Approval) : Prop :=
  l.Pairwise (fun a b => a.id ≠ b.id) ∧ l.Pairwise currentKeyRel

/-- The per-row rewrite of `updateApproval`. -/
def updFn (i : Nat) (p : ApprovalPatch) (a : Approval) : Approval :=
  if a.id = i then applyPatch p a else a

theorem updateApproval_approvals (i : Nat) (p : ApprovalPatch) (db : DB) :
    (updateApproval i p db).approvals = db.approvals.map (updFn i p) := rfl

theorem updFn_id (i : Nat) (p : ApprovalPatch) (a : Approval) :
    (updFn i p a).id = a.id := by
  unfold updFn; split <;> rfl

/-- The five approval storage operations with no call-site conditions:
any argument, any time. -/
inductive StepAny : DB → DB → Prop where
  | create (ia : InsertApproval) (now : Nat) (db : DB) :
      StepAny db (createApproval ia now db).1
  | update (i : Nat) (p : ApprovalPatch) (db : DB) :
      StepAny db (updateApproval i p db)
  | mark (rt : String) (rid : Nat) (db : DB) :
      StepAny db (markPreviousCycleApprovalsAsInactive rt rid db)
  | inc (rt : String) (rid : Nat) (db : DB) :
      StepAny db (incrementApprovalCycle rt rid db).1
  | del (i : Nat) (db : DB) :
      StepAny db (deleteApproval i db)

/-- States reachable from an empty approvals table by unconditioned
storage operations. -/
inductive ReachAny : DB → Prop where
  | init (inv : List InvestmentRequest) (ts : List Task) : ReachAny ⟨inv, [], ts⟩
  | step {db db' : DB} : ReachAny db → StepAny db db' → ReachAny db'

/-- The storage operations under call-site guards: an insert or update may
not introduce a current-cycle row at a (requestType, requestId, stage) that
already has a different current-cycle row. -/
inductive StepChecked : DB → DB → Prop where
  | create (ia : InsertApproval) (now : Nat) (db : DB)
      (h : ia.isCurrentCycle = true → ∀ b ∈ db.approvals, b.isCurrentCycle = true →
        ¬ (ia.requestType = b.requestType ∧ ia.requestId = b.requestId ∧
           ia.stage = b.stage)) :
      StepChecked db (createApproval ia now db).1
  | update (i : Nat) (p : ApprovalPatch) (db : DB)
      (h : ∀ a ∈ db.approvals, a.id = i → (applyPatch p a).isCurrentCycle = true →
        ∀ b ∈ db.approvals, b.id ≠ i → b.isCurrentCycle = true →
          ¬ sameKey (applyPatch p a) b) :
      StepChecked db (updateApproval i p db)
  | mark (rt : String) (rid : Nat) (db : DB) :
      StepChecked db (markPreviousCycleApprovalsAsInactive rt rid db)
  | inc (rt : String) (rid : Nat) (db : DB) :
      StepChecked db (incrementApprovalCycle rt rid db).1
  | del (i : Nat) (db : DB) :
      StepChecked db (deleteApproval i db)

/-- States reachable from an empty approvals table by guarded operations. -/
inductive ReachableChecked : DB → Prop where
  | init (inv : List InvestmentRequest) (ts : List Task) : ReachableChecked ⟨inv, [], ts⟩
  | step {db db' : DB} : ReachableChecked db → StepChecked db db' → ReachableChecked db'

theorem approvalInv_create (ia : InsertApproval) (now : Nat) (db : DB)
    (hinv : ApprovalInv db.approvals)
    (h : ia.isCurrentCycle = true → ∀ b ∈ db.approvals, b.isCurrentCycle = true →
      ¬ (ia.requestType = b.requestType ∧ ia.requestId = b.requestId ∧
         ia.stage = b.stage)) :
    ApprovalInv (createApproval ia now db).1.approvals := by
  have happ : (createApproval ia now db).1.approvals =
      db.approvals ++ [insertApprovalRow ia (freshApprovalId db) now] := rfl
  constructor
  · rw [happ, List.pairwise_append]
    refine ⟨hinv.1, by simp, ?_⟩
    intro a ha b hb
    rw [List.mem_singleton] at hb
    subst hb
    have hle : a.id ≤ (db.approvals.map (·.id)).foldl max 0 :=
      mem_le_foldl_max _ 0 a.id (List.mem_map_of_mem _ ha)
    show a.id ≠ freshApprovalId db
    unfold freshApprovalId
    omega
  · rw [happ, List.pairwise_append]
    refine ⟨hinv.2, by simp, ?_⟩
    intro a ha b hb
    rw [List.mem_singleton] at hb
    subst hb
    intro hca hcb hk
    exact h hcb a ha hca ⟨hk.1.symm, hk.2.1.symm, hk.2.2.symm⟩

theorem approvalInv_update (i : Nat) (p : ApprovalPatch) (db : DB)
    (hinv : ApprovalInv db.approvals)
    (h : ∀ a ∈ db.approvals, a.id = i → (applyPatch p a).isCurrentCycle = true →
      ∀ b ∈ db.approvals, b.id ≠ i → b.isCurrentCycle = true →
        ¬ sameKey (applyPatch p a) b) :
    ApprovalInv (updateApproval i p db).approvals := by
  rw [updateApproval_approvals]
  constructor
  · rw [List.pairwise_map]
    apply hinv.1.imp
    intro a b hab
    rw [updFn_id, updFn_id]
    exact hab
  · rw [List.pairwise_map]
    refine List.Pairwise.imp_of_mem ?_ (hinv.1.and hinv.2)
    intro a b ha hb hab
    obtain ⟨hid, hr⟩ := hab
    intro hca hcb hk
    by_cases h1 : a.id = i <;> by_cases h2 : b.id = i
    · exact hid (h1.trans h2.symm)
    · simp only [updFn, if_pos h1, if_neg h2] at hca hcb hk
      exact h a ha h1 hca b hb h2 hcb hk
    · simp only [updFn, if_neg h1, if_pos h2] at hca hcb hk
      exact h b hb h2 hcb a ha h1 hca (sameKey_symm hk)
    · simp only [updFn, if_neg h1, if_neg h2] at hca hcb hk
      exact hr hca hcb hk

theorem approvalInv_mark (rt : String) (rid : Nat) (db : DB)
    (hinv : ApprovalInv db.approvals) :
    ApprovalInv (markPreviousCycleApprovalsAsInactive rt rid db).approvals := by
  have happ : (markPreviousCycleApprovalsAsInactive rt rid db).approvals =
      db.approvals.map (markFn rt rid) := rfl
  rw [happ]
  constructor
  · rw [List.pairwise_map]
    apply hinv.1.imp
    intro a b hab
    rw [markFn_id, markFn_id]
    exact hab
  · rw [List.pairwise_map]
    apply hinv.2.imp
    intro a b hab hca hcb hk
    have ea := markFn_current_eq rt rid a hca
    have eb := markFn_current_eq rt rid b hcb
    rw [ea] at hca hk
    rw [eb] at hcb hk
    exact hab hca hcb hk

theorem approvalInv_del (i : Nat) (db : DB) (hinv : ApprovalInv db.approvals) :
    ApprovalInv (deleteApproval i db).approvals :=
  ⟨List.Pairwise.sublist (List.filter_sublist _) hinv.1,
   List.Pairwise.sublist (List.filter_sublist _) hinv.2⟩

theorem stepChecked_inv {db db' : DB} (hinv : ApprovalInv db.approvals)
    (hs : StepChecked db db') : ApprovalInv db'.approvals := by
  cases hs with
  | create ia now db h => exact approvalInv_create ia now db hinv h
  | update i p db h => exact approvalInv_update i p db hinv h
  | mark rt rid db => exact approvalInv_mark rt rid db hinv
  | inc rt rid db =>
      rw [incrementApprovalCycle_approvals]
      exact approvalInv_mark rt rid db hinv
  | del i db => exact approvalInv_del i db hinv

theorem reachableChecked_inv {db : DB} (h : ReachableChecked db) :
    ApprovalInv db.approvals := by
  induction h with
  | init inv ts => exact ⟨List.Pairwise.nil, List.Pairwise.nil⟩
  | step _ hs ih => exact stepChecked_inv ih hs

def c4insert : InsertApproval :=
  { requestType := "investment", requestId := 7, stage := 1, approverId := 4,
    status := "pending", approvalCycle := 1, isCurrentCycle := true }

def c4db : DB :=
  (createApproval c4insert 0 (createApproval c4insert 0 ⟨[], [], []⟩).1).1

/-- Claim C4 as stated is false: the storage operations alone do not
maintain the invariant. From an empty store, two plain `createApproval`
calls with the same (requestType, requestId, stage) and
`isCurrentCycle = true` reach a state with two current-cycle rows at the
same stage of the same request. -/
theorem C4_counterexample : ReachAny c4db ∧ ¬ NoDupCurrent c4db :=
  ⟨ReachAny.step (ReachAny.step (ReachAny.init [] [])
      (StepAny.create c4insert 0 _)) (StepAny.create c4insert 0 _),
   by decide⟩

/-- Claim C4, amended: `markPreviousCycleApprovalsAsInactive`,
`incrementApprovalCycle` and `deleteApproval` preserve the at-most-one-
current-approval-per-(requestType, requestId, stage) invariant
unconditionally, and `createApproval` / `updateApproval` preserve it under
the call-site guard that they do not introduce a current-cycle row whose
(requestType, requestId, stage) already carries a different current-cycle
row; every state reachable from an empty approvals table by so-guarded
operations satisfies the invariant. The storage layer itself does not
enforce it. -/
theorem C4_noDupCurrent_amended (db : DB) (h : ReachableChecked db) :
    NoDupCurrent db :=
  (reachableChecked_inv h).2

/-- Witness for the amended C4: the initial state satisfies the invariant. -/
theorem C4_noDupCurrent_amended_witness : NoDupCurrent ⟨[], [], []⟩ :=
  C4_noDupCurrent_amended ⟨[], [], []⟩ (ReachableChecked.init [] [])

/-! ## Claim C5: current-cycle vs all-cycle queries after marking -/

def clearCurrent (a : Approval) : Approval :=
  { a with isCurrentCycle := false }

theorem clearCurrent_of_not_current (a : Approval) (h : a.isCurrentCycle = false) :
    clearCurrent a = a := by
  cases a with
  | mk i rt rid st ap s cyc cur cr =>
    cases cur
    · rfl
    · exact Bool.noConfusion h

theorem markFn_eq_clearCurrent (rt : String) (rid : Nat) (a : Approval)
    (hm : approvalMatches rt rid a = true) :
    markFn rt rid a = clearCurrent a := by
  unfold markFn
  cases hc : a.isCurrentCycle
  · rw [if_neg (by simp [hc])]
    exact (clearCurrent_of_not_current a hc).symm
  · rw [if_pos (by simp [hm, hc])]
    rfl

theorem mark_filter_current_nil (rt : String) (rid : Nat) (db : DB) :
    (markPreviousCycleApprovalsAsInactive rt rid db).approvals.filter
      (fun a => approvalMatches rt rid a && a.isCurrentCycle) = [] := by
  rw [List.filter_eq_nil_iff]
  intro a ha
  have happ : (markPreviousCycleApprovalsAsInactive rt rid db).approvals =
      db.approvals.map (markFn rt rid) := rfl
  rw [happ] at ha
  obtain ⟨b, _, rfl⟩ := List.mem_map.mp ha
  intro hcond
  rw [Bool.and_eq_true] at hcond
  have hm : approvalMatches rt rid b = true := by
    rw [approvalMatches_markFn] at hcond
    exact hcond.1
  rw [markFn_matching_not_current rt rid b hm] at hcond
  exact Bool.noConfusion hcond.2

theorem mark_filter_matching (rt : String) (rid : Nat) (db : DB) :
    (markPreviousCycleApprovalsAsInactive rt rid db).approvals.filter
        (approvalMatches rt rid) =
      (db.approvals.filter (approvalMatches rt rid)).map clearCurrent := by
  have happ : (markPreviousCycleApprovalsAsInactive rt rid db).approvals =
      db.approvals.map (markFn rt rid) := rfl
  rw [happ, List.filter_map]
  have hc : (approvalMatches rt rid ∘ markFn rt rid) = approvalMatches rt rid := by
    funext a
    exact approvalMatches_markFn rt rid a
  rw [hc]
  apply List.map_congr_left
  intro a ha
  exact markFn_eq_clearCurrent rt rid a (List.mem_filter.mp ha).2

/-- Claim C5: after `markPreviousCycleApprovalsAsInactive` (and hence after
`incrementApprovalCycle`) the current-cycle query for the request returns
the empty list, while the all-cycle query still returns every approval row
ever recorded for the request — the same rows up to the cleared
`isCurrentCycle` flag, no row deleted — sorted by the source's
`approvalCycle DESC, stage` key. -/
theorem C5_mark_preserves_history (rt : String) (rid : Nat) (db : DB) :
    getCurrentCycleApprovalsByRequest rt rid
        (markPreviousCycleApprovalsAsInactive rt rid db) = [] ∧
    getCurrentCycleApprovalsByRequest rt rid (incrementApprovalCycle rt rid db).1 = [] ∧
    (getAllCycleApprovalsByRequest rt rid
        (markPreviousCycleApprovalsAsInactive rt rid db)).Perm
      ((getAllCycleApprovalsByRequest rt rid db).map clearCurrent) ∧
    (getAllCycleApprovalsByRequest rt rid
        (markPreviousCycleApprovalsAsInactive rt rid db)).Pairwise
      (fun a b => cycleDescStageLe a b = true) := by
  refine ⟨?_, ?_, ?_, ?_⟩
  · show ordSort stageLe _ = []
    rw [mark_filter_current_nil]
    rfl
  · show ordSort stageLe ((incrementApprovalCycle rt rid db).1.approvals.filter _) = []
    rw [incrementApprovalCycle_approvals]
    show ordSort stageLe _ = []
    rw [mark_filter_current_nil]
    rfl
  · refine (ordSort_perm cycleDescStageLe
      ((markPreviousCycleApprovalsAsInactive rt rid db).approvals.filter
        (approvalMatches rt rid))).trans ?_
    rw [mark_filter_matching]
    exact ((ordSort_perm cycleDescStageLe
      (db.approvals.filter (approvalMatches rt rid))).map clearCurrent).symm
  · have htrans : ∀ a b c : Approval, cycleDescStageLe a b = true →
        cycleDescStageLe b c = true → cycleDescStageLe a c = true := by
      intro a b c hab hbc
      unfold cycleDescStageLe at *
      simp only [Bool.or_eq_true, Bool.and_eq_true, decide_eq_true_eq] at *
      omega
    have htot : ∀ a b : Approval, cycleDescStageLe a b = true ∨
        cycleDescStageLe b a = true := by
      intro a b
      unfold cycleDescStageLe
      simp only [Bool.or_eq_true, Bool.and_eq_true, decide_eq_true_eq]
      omega
    exact ordSort_pairwise _ htrans htot _

/-! ## Soft delete and investment-request queries (`storage.ts`) -/

/-- `canDeleteInvestmentRequest`: 'new' is deletable (approvals are checked
in the API layer); otherwise only the listed statuses are. -/
def canDeleteInvestmentRequest (status : String) : Bool :=
  if status = "new" then true
  else decide (status ∈ ["draft", "rejected", "admin_rejected",
    "changes_requested", "opportunity"])

/-- `getInvestmentRequest`: `SELECT ... WHERE id = i AND deletedAt IS NULL`,
first row. -/
def getInvestmentRequest (i : Nat) (db : DB) : Option InvestmentRequest :=
  db.investmentRequests.find? (fun r => decide (r.id = i) && r.deletedAt.isNone)

/-- `getInvestmentRequestByRequestId`: same with the human-readable id. -/
def getInvestmentRequestByRequestId (rid : String) (db : DB) : Option InvestmentRequest :=
  db.investmentRequests.find? (fun r => decide (r.requestId = rid) && r.deletedAt.isNone)

/-- The optional filters of `getInvestmentRequests`. A `userId` of 0 or a
status of "" is falsy in the source and applies no condition. -/
structure RequestFilters where
  userId : Option Nat := none
  status : Option String := none
deriving DecidableEq, Repr

def requestCond (f : RequestFilters) (r : InvestmentRequest) : Bool :=
  r.deletedAt.isNone &&
    (match f.userId with
     | some u => if u = 0 then true else decide (r.requesterId = u)
     | none => true) &&
    (match f.status with
     | some s => if s = "" then true else decide (r.status = s)
     | none => true)

def createdAtDesc (a b : InvestmentRequest) : Bool :=
  decide (b.createdAt ≤ a.createdAt)

/-- `getInvestmentRequests`: always drops soft-deleted rows, applies the
truthy filters, orders by `createdAt DESC`. -/
def getInvestmentRequests (f : RequestFilters) (db : DB) : List InvestmentRequest :=
  ordSort createdAtDesc (db.investmentRequests.filter (requestCond f))

/-- The per-row soft-delete rewrite:
`SET deletedAt = now() WHERE id = i`. -/
def softDeleteFn (i : Nat) (now : Nat) (r : InvestmentRequest) : InvestmentRequest :=
  if r.id = i then { r with deletedAt := some now } else r

/-- The task cleanup rewrite of `softDeleteInvestmentRequest`:
`SET status = 'completed', completedAt = now() WHERE requestType =
'investment' AND requestId = i AND status = 'pending'`. -/
def taskCompleteFn (i : Nat) (now : Nat) (t : Task) : Task :=
  if decide (t.requestType = "investment") && decide (t.requestId = i) &&
      decide (t.status = "pending")
  then { t with status := "completed", completedAt := some now } else t

/-- `softDeleteInvestmentRequest(id, userId)`: fetch the row without the
deleted filter; refuse when absent, not owned, already deleted, or in a
non-deletable status; otherwise stamp `deletedAt` and complete the
request's pending tasks. -/
def softDeleteInvestmentRequest (i : Nat) (userId : Nat) (now : Nat) (db : DB) :
    Bool × DB :=
  match db.investmentRequests.find? (fun r => decide (r.id = i)) with
  | none => (false, db)
  | some r =>
    if r.requesterId ≠ userId then (false, db)
    else if r.deletedAt.isSome then (false, db)
    else if canDeleteInvestmentRequest r.status then
      (true,
        { db with
          investmentRequests := db.investmentRequests.map (softDeleteFn i now),
          tasks := db.tasks.map (taskCompleteFn i now) })
    else (false, db)

/-! ## The DELETE /api/investments/:id handler (`lib/auth.ts`) -/

def activeWorkflowStatuses : List String :=
  ["new", "Manager approved", "Committee approved", "Finance approved", "approved"]

/-- The route handler: 404 when the request is absent or soft-deleted, 403
when not owned by the caller, 400 when actively in the approval workflow
with recorded approvals, 400 when the storage layer refuses the soft
delete, 200 on success. -/
def deleteInvestmentHandler (i : Nat) (userId : Nat) (now : Nat) (db : DB) :
    Nat × DB :=
  match getInvestmentRequest i db with
  | none => (404, db)
  | some inv =>
    if inv.requesterId ≠ userId then (403, db)
    else if inv.status ∈ activeWorkflowStatuses ∧
        getApprovalsByRequest "investment" i db ≠ [] then (400, db)
    else
      let p := softDeleteInvestmentRequest i userId now db
      if p.1 then (200, p.2) else (400, p.2)

/-! ## Facts about the getters and the soft delete -/

theorem getInvestmentRequest_spec {i : Nat} {db : DB} {inv : InvestmentRequest}
    (h : getInvestmentRequest i db = some inv) :
    inv ∈ db.investmentRequests ∧ inv.id = i ∧ inv.deletedAt = none := by
  refine ⟨List.mem_of_find?_eq_some h, ?_⟩
  have hp := List.find?_some h
  rw [Bool.and_eq_true, decide_eq_true_eq, Option.isNone_iff_eq_none] at hp
  exact hp

/-- With distinct primary keys, the unfiltered lookup used by
`softDeleteInvestmentRequest` finds the same row as `getInvestmentRequest`. -/
theorem find_plain_of_get {i : Nat} {db : DB} {inv : InvestmentRequest}
    (hids : (db.investmentRequests.map (·.id)).Nodup)
    (h : getInvestmentRequest i db = some inv) :
    db.investmentRequests.find? (fun r => decide (r.id = i)) = some inv := by
  obtain ⟨hmem, hid, _⟩ := getInvestmentRequest_spec h
  have hsome : (db.investmentRequests.find? (fun r => decide (r.id = i))).isSome = true := by
    rw [List.find?_isSome]
    exact ⟨inv, hmem, by simp [hid]⟩
  obtain ⟨r', hr'⟩ := Option.isSome_iff_exists.mp hsome
  have hmem' := List.mem_of_find?_eq_some hr'
  have hid' : r'.id = i := by
    have := List.find?_some hr'
    rwa [decide_eq_true_eq] at this
  have : r' = inv :=
    List.inj_on_of_nodup_map hids hmem' hmem (by rw [hid', hid])
  rw [hr', this]

/-- The soft delete either succeeds — exactly when the row exists, is owned
by the caller, is not yet deleted, and has a deletable status — and rewrites
the request and task tables, or fails and returns the store unchanged. -/
theorem softDelete_dichotomy (i userId now : Nat) (db : DB) :
    (softDeleteInvestmentRequest i userId now db =
        (true, { db with
          investmentRequests := db.investmentRequests.map (softDeleteFn i now),
          tasks := db.tasks.map (taskCompleteFn i now) }) ∧
      ∃ r, db.investmentRequests.find? (fun x => decide (x.id = i)) = some r ∧
        r.requesterId = userId ∧ r.deletedAt = none ∧
        canDeleteInvestmentRequest r.status = true) ∨
    (softDeleteInvestmentRequest i userId now db = (false, db) ∧
      ¬ ∃ r, db.investmentRequests.find? (fun x => decide (x.id = i)) = some r ∧
        r.requesterId = userId ∧ r.deletedAt = none ∧
        canDeleteInvestmentRequest r.status = true) := by
  unfold softDeleteInvestmentRequest
  cases hfind : db.investmentRequests.find? (fun r => decide (r.id = i)) with
  | none =>
      right
      refine ⟨rfl, ?_⟩
      rintro ⟨r, hr, -⟩
      exact Option.noConfusion hr
  | some r =>
      dsimp only
      by_cases hown : r.requesterId ≠ userId
      · rw [if_pos hown]
        right
        refine ⟨rfl, ?_⟩
        rintro ⟨r', hr', hown', -, -⟩
        cases Option.some.inj hr'
        exact hown hown'
      · rw [if_neg hown]
        have howneq : r.requesterId = userId := not_not.mp hown
        by_cases hdel : r.deletedAt.isSome
        · rw [if_pos hdel]
          right
          refine ⟨rfl, ?_⟩
          rintro ⟨r', hr', -, hdel', -⟩
          cases Option.some.inj hr'
          rw [hdel'] at hdel
          exact Bool.noConfusion hdel
        · rw [if_neg hdel]
          have hdelnone : r.deletedAt = none := by
            cases hd : r.deletedAt
            · rfl
            · rw [hd] at hdel
              exact absurd rfl hdel
          by_cases hcan : canDeleteInvestmentRequest r.status = true
          · rw [if_pos hcan]
            left
            exact ⟨rfl, r, rfl, howneq, hdelnone, hcan⟩
          · rw [if_neg hcan]
            right
            refine ⟨rfl, ?_⟩
            rintro ⟨r', hr', -, -, hcan'⟩
            cases Option.some.inj hr'
            exact hcan hcan'

/-- Claim C6: `softDeleteInvestmentRequest(id, userId)` returns true exactly
when the row exists, `userId` is its requester, it is not already deleted,
and its status is deletable; on failure the store is unchanged; and after a
success the request carries `deletedAt`, its pending investment tasks are no
longer pending, and `getInvestmentRequest`,
`getInvestmentRequestByRequestId` and `getInvestmentRequests` never return
it. Request-id uniqueness (a DB unique constraint) is assumed for the
by-request-id getter. -/
theorem C6_softDeleteInvestmentRequest_correct (i userId now : Nat) (db : DB)
    (hrids : (db.investmentRequests.map (·.requestId)).Nodup) :
    ((softDeleteInvestmentRequest i userId now db).1 = true ↔
      ∃ r, db.investmentRequests.find? (fun x => decide (x.id = i)) = some r ∧
        r.requesterId = userId ∧ r.deletedAt = none ∧
        canDeleteInvestmentRequest r.status = true) ∧
    ((softDeleteInvestmentRequest i userId now db).1 = false →
      (softDeleteInvestmentRequest i userId now db).2 = db) ∧
    ((softDeleteInvestmentRequest i userId now db).1 = true →
      getInvestmentRequest i (softDeleteInvestmentRequest i userId now db).2 = none) ∧
    ((softDeleteInvestmentRequest i userId now db).1 = true →
      ∀ r, db.investmentRequests.find? (fun x => decide (x.id = i)) = some r →
        getInvestmentRequestByRequestId r.requestId
          (softDeleteInvestmentRequest i userId now db).2 = none) ∧
    ((softDeleteInvestmentRequest i userId now db).1 = true →
      ∀ f r', r' ∈ getInvestmentRequests f (softDeleteInvestmentRequest i userId now db).2 →
        ¬ r'.id = i) ∧
    ((softDeleteInvestmentRequest i userId now db).1 = true →
      ∀ r' ∈ (softDeleteInvestmentRequest i userId now db).2.investmentRequests,
        r'.id = i → r'.deletedAt = some now) ∧
    ((softDeleteInvestmentRequest i userId now db).1 = true →
      ∀ t ∈ (softDeleteInvestmentRequest i userId now db).2.tasks,
        t.requestType = "investment" → t.requestId = i → ¬ t.status = "pending") := by
  rcases softDelete_dichotomy i userId now db with ⟨heq, hex⟩ | ⟨heq, hnex⟩
  · have h1 : (softDeleteInvestmentRequest i userId now db).1 = true := by rw [heq]
    have h2 : (softDeleteInvestmentRequest i userId now db).2 =
        { db with
          investmentRequests := db.investmentRequests.map (softDeleteFn i now),
          tasks := db.tasks.map (taskCompleteFn i now) } := by rw [heq]
    refine ⟨⟨fun _ => hex, fun _ => h1⟩, ?_, ?_, ?_, ?_, ?_, ?_⟩
    · intro hfalse
      rw [h1] at hfalse
      exact Bool.noConfusion hfalse
    · intro _
      rw [h2]
      unfold getInvestmentRequest
      rw [List.find?_eq_none]
      intro a ha
      obtain ⟨r0, _, rfl⟩ := List.mem_map.mp ha
      by_cases h0 : r0.id = i
      · simp [softDeleteFn, h0]
      · simp [softDeleteFn, h0]
    · intro _ r hr
      have hrid : r.id = i := by
        have := List.find?_some hr
        rwa [decide_eq_true_eq] at this
      have hrmem := List.mem_of_find?_eq_some hr
      rw [h2]
      unfold getInvestmentRequestByRequestId
      rw [List.find?_eq_none]
      intro a ha
      obtain ⟨r0, hr0mem, rfl⟩ := List.mem_map.mp ha
      by_cases h0 : r0.requestId = r.requestId
      · have : r0 = r := List.inj_on_of_nodup_map hrids hr0mem hrmem h0
        subst this
        simp [softDeleteFn, hrid]
      · have hpres : (softDeleteFn i now r0).requestId = r0.requestId := by
          unfold softDeleteFn
          split <;> rfl
        simp [hpres, h0]
    · intro _ f r' hr'
      have hmem : r' ∈ (softDeleteInvestmentRequest i userId now db).2.investmentRequests.filter
          (requestCond f) :=
        (ordSort_perm createdAtDesc _).mem_iff.mp hr'
      have hcond := (List.mem_filter.mp hmem).2
      have hmem2 := (List.mem_filter.mp hmem).1
      rw [h2] at hmem2
      obtain ⟨r0, _, rfl⟩ := List.mem_map.mp hmem2
      intro hid
      by_cases h0 : r0.id = i
      · have : (softDeleteFn i now r0).deletedAt = some now := by
          simp [softDeleteFn, h0]
        unfold requestCond at hcond
        rw [Bool.and_eq_true, Bool.and_eq_true] at hcond
        rw [this] at hcond
        exact Bool.noConfusion hcond.1.1
      · have : softDeleteFn i now r0 = r0 := by
          simp [softDeleteFn, h0]
        rw [this] at hid
        exact h0 hid
    · intro _ r' hr' hid
      rw [h2] at hr'
      obtain ⟨r0, _, rfl⟩ := List.mem_map.mp hr'
      by_cases h0 : r0.id = i
      · simp [softDeleteFn, h0]
      · have : softDeleteFn i now r0 = r0 := by simp [softDeleteFn, h0]
        rw [this] at hid
        exact absurd hid h0
    · intro _ t ht hrt hreq hpending
      rw [h2] at ht
      obtain ⟨t0, _, rfl⟩ := List.mem_map.mp ht
      by_cases h0 : (decide (t0.requestType = "investment") && decide (t0.requestId = i) &&
          decide (t0.status = "pending")) = true
      · have hfire : taskCompleteFn i now t0 =
            { t0 with status := "completed", completedAt := some now } := by
          unfold taskCompleteFn
          rw [if_pos h0]
        rw [hfire] at hpending
        simp at hpending
      · have heq0 : taskCompleteFn i now t0 = t0 := by
          unfold taskCompleteFn
          rw [if_neg h0]
        rw [heq0] at hrt hreq hpending
        apply h0
        simp [hrt, hreq, hpending]
  · have h1 : (softDeleteInvestmentRequest i userId now db).1 = false := by rw [heq]
    refine ⟨⟨fun htrue => Bool.noConfusion (h1.symm.trans htrue),
        fun hex => absurd hex hnex⟩,
      fun _ => by rw [heq], ?_, ?_, ?_, ?_, ?_⟩ <;>
    · intro htrue
      rw [h1] at htrue
      exact Bool.noConfusion htrue

def c6req : InvestmentRequest :=
  { id := 1, requestId := "INV-2025-0001", requesterId := 2, amount := 500000,
    riskLevel := "medium", status := "draft", currentApprovalStage := 0,
    deletedAt := none, createdAt := 10, currentApprovalCycle := 1 }

def c6task : Task :=
  { id := 1, assigneeId := 5, requestType := "investment", requestId := 1,
    status := "pending", completedAt := none }

def c6db : DB :=
  { investmentRequests := [c6req], approvals := [], tasks := [c6task] }

/-- Witness for C6 at a concrete store: the requester deletes their own
draft request; the call succeeds and the request is gone from
`getInvestmentRequest`. -/
theorem C6_softDeleteInvestmentRequest_correct_witness :
    (softDeleteInvestmentRequest 1 2 99 c6db).1 = true ∧
    getInvestmentRequest 1 (softDeleteInvestmentRequest 1 2 99 c6db).2 = none := by
  have h := C6_softDeleteInvestmentRequest_correct 1 2 99 c6db (by decide)
  have h1 : (softDeleteInvestmentRequest 1 2 99 c6db).1 = true :=
    h.1.mpr ⟨c6req, by decide, rfl, rfl, by decide⟩
  exact ⟨h1, h.2.2.1 h1⟩

/-- When `getInvestmentRequest` found the (live, owned) row, the soft delete
reduces to the deletable-status check. -/
theorem softDelete_of_get {i userId : Nat} (now : Nat) {db : DB}
    {inv : InvestmentRequest}
    (hids : (db.investmentRequests.map (·.id)).Nodup)
    (h : getInvestmentRequest i db = some inv)
    (hown : inv.requesterId = userId) :
    softDeleteInvestmentRequest i userId now db =
      (if canDeleteInvestmentRequest inv.status then
        (true,
          { db with
            investmentRequests := db.investmentRequests.map (softDeleteFn i now),
            tasks := db.tasks.map (taskCompleteFn i now) })
      else (false, db)) := by
  unfold softDeleteInvestmentRequest
  rw [find_plain_of_get hids h]
  dsimp only
  rw [if_neg (not_not_intro hown)]
  rw [(getInvestmentRequest_spec h).2.2]
  rw [if_neg (by simp)]

/-- Claim C9: the DELETE /api/investments/:id handler returns 404 when the
request is absent or soft-deleted, 403 when the caller is not the
requester, 400 when the request is in an active workflow status with
recorded approvals or in a non-deletable status, and 200 exactly on a
successful soft delete. Primary-key uniqueness is assumed. -/
theorem C9_deleteInvestmentHandler_status (i userId now : Nat) (db : DB)
    (hids : (db.investmentRequests.map (·.id)).Nodup) :
    (getInvestmentRequest i db = none →
      deleteInvestmentHandler i userId now db = (404, db)) ∧
    (∀ inv, getInvestmentRequest i db = some inv → ¬ inv.requesterId = userId →
      deleteInvestmentHandler i userId now db = (403, db)) ∧
    (∀ inv, getInvestmentRequest i db = some inv → inv.requesterId = userId →
      inv.status ∈ activeWorkflowStatuses →
      ¬ getApprovalsByRequest "investment" i db = [] →
      deleteInvestmentHandler i userId now db = (400, db)) ∧
    (∀ inv, getInvestmentRequest i db = some inv → inv.requesterId = userId →
      ¬ (inv.status ∈ activeWorkflowStatuses ∧
         ¬ getApprovalsByRequest "investment" i db = []) →
      canDeleteInvestmentRequest inv.status = false →
      deleteInvestmentHandler i userId now db = (400, db)) ∧
    (∀ inv, getInvestmentRequest i db = some inv → inv.requesterId = userId →
      ¬ (inv.status ∈ activeWorkflowStatuses ∧
         ¬ getApprovalsByRequest "investment" i db = []) →
      canDeleteInvestmentRequest inv.status = true →
      (deleteInvestmentHandler i userId now db).1 = 200 ∧
      (softDeleteInvestmentRequest i userId now db).1 = true) := by
  refine ⟨?_, ?_, ?_, ?_, ?_⟩
  · intro h
    unfold deleteInvestmentHandler
    rw [h]
  · intro inv h hown
    unfold deleteInvestmentHandler
    rw [h]
    dsimp only
    rw [if_pos hown]
  · intro inv h hown hact happr
    unfold deleteInvestmentHandler
    rw [h]
    dsimp only
    rw [if_neg (not_not_intro hown), if_pos ⟨hact, happr⟩]
  · intro inv h hown hnact hcan
    have hsd : softDeleteInvestmentRequest i userId now db = (false, db) := by
      rw [softDelete_of_get now hids h hown, hcan]
      rfl
    unfold deleteInvestmentHandler
    rw [h]
    dsimp only
    rw [if_neg (not_not_intro hown), if_neg hnact, hsd]
    rfl
  · intro inv h hown hnact hcan
    have hsd1 : (softDeleteInvestmentRequest i userId now db).1 = true := by
      rw [softDelete_of_get now hids h hown, hcan]
      rfl
    refine ⟨?_, hsd1⟩
    unfold deleteInvestmentHandler
    rw [h]
    dsimp only
    rw [if_neg (not_not_intro hown), if_neg hnact, hsd1]
    rfl

/-- Witness for C9: on the empty store the handler returns 404. -/
theorem C9_deleteInvestmentHandler_status_witness :
    deleteInvestmentHandler 1 2 0 ⟨[], [], []⟩ = (404, ⟨[], [], []⟩) :=
  (C9_deleteInvestmentHandler_status 1 2 0 ⟨[], [], []⟩ (by decide)).1 rfl

/-! ## Claim C7: `prepareDocumentForAI` (`server/services/prepareAIService.ts`)

The external vector store is modelled as a list of (file id, filename)
pairs; `getOrCreateVectorStore` and the Python upload API are oracle
inputs. -/

structure VSFile where
  id : String
  filename : String
deriving DecidableEq, Repr

structure PyUploadResult where
  success : Bool
  fileId : String
  vsFileStatus : String
  error : Option String
deriving DecidableEq, Repr

/-- The external world as one run of `prepareDocumentForAI` observes it. -/
structure PrepEnv where
  vectorStoreId : Option String
  vsFiles : List VSFile
  pyResult : PyUploadResult
deriving DecidableEq, Repr

/-- The run's observable outcome: the returned (or thrown) result, the
document's final `analysisStatus`, and the vector store's final contents. -/
structure PrepOutcome where
  result : Except String (String × String)
  analysisStatus : String
  vsFiles : List VSFile
deriving Repr

/-- `checkFileInVectorStore`: list the store's files and return the first
whose filename matches. -/
def checkFileInVectorStore (files : List VSFile) (fileName : String) : Option VSFile :=
  files.find? (fun f => decide (f.filename = fileName))

/-- The file record the Python upload adds to the vector store. -/
def uploadedFile (env : PrepEnv) (fileName : String) : VSFile :=
  { id := env.pyResult.fileId, filename := fileName }

/-- `prepareDocumentForAI`: mark processing, get the store, check for an
existing file by name BEFORE any upload; on a hit return the existing file
id with status completed and upload nothing; otherwise upload through the
Python API, completing or failing the document accordingly. -/
def prepareDocumentForAI (env : PrepEnv) (fileName : String) : PrepOutcome :=
  match env.vectorStoreId with
  | none =>
      { result := Except.error "Failed to get or create vector store",
        analysisStatus := "failed", vsFiles := env.vsFiles }
  | some _ =>
      match checkFileInVectorStore env.vsFiles fileName with
      | some existing =>
          { result := Except.ok ("Document already prepared for AI", existing.id),
            analysisStatus := "completed", vsFiles := env.vsFiles }
      | none =>
          if env.pyResult.success then
            if env.pyResult.vsFileStatus = "completed" then
              { result := Except.ok ("Document prepared for AI successfully",
                  env.pyResult.fileId),
                analysisStatus := "completed",
                vsFiles := env.vsFiles ++ [uploadedFile env fileName] }
            else
              { result := Except.error "Python API processing failed",
                analysisStatus := "failed",
                vsFiles := env.vsFiles ++ [uploadedFile env fileName] }
          else
            { result := Except.error ("Python API failed: " ++
                (env.pyResult.error.getD "Unknown error")),
              analysisStatus := "failed", vsFiles := env.vsFiles }

/-- Claim C7: when the vector store already holds a file whose name matches
the uploaded document, `prepareDocumentForAI` returns success with the
existing external file id, sets the document's `analysisStatus` to
completed, and performs no new upload — the store is unchanged. The
duplicate check runs before any upload on every run, so this holds on
retries regardless of the Python upload oracle. -/
theorem C7_prepare_duplicate_no_upload (env : PrepEnv) (fileName vsId : String)
    (f : VSFile) (hvs : env.vectorStoreId = some vsId)
    (hf : checkFileInVectorStore env.vsFiles fileName = some f) :
    (prepareDocumentForAI env fileName).result =
      Except.ok ("Document already prepared for AI", f.id) ∧
    (prepareDocumentForAI env fileName).analysisStatus = "completed" ∧
    (prepareDocumentForAI env fileName).vsFiles = env.vsFiles := by
  unfold prepareDocumentForAI
  rw [hvs]
  dsimp only
  rw [hf]
  exact ⟨rfl, rfl, rfl⟩

def c7pyResult : PyUploadResult :=
  { success := true, fileId := "file-new", vsFileStatus := "completed", error := none }

def c7env : PrepEnv :=
  { vectorStoreId := some "vs-1",
    vsFiles := [{ id := "file-9", filename := "report.pdf" }],
    pyResult := c7pyResult }

/-- Witness for C7: a store already holding "report.pdf" under id "file-9"
yields that id, a completed status, and no upload. -/
theorem C7_prepare_duplicate_no_upload_witness :
    (prepareDocumentForAI c7env "report.pdf").result =
      Except.ok ("Document already prepared for AI", "file-9") ∧
    (prepareDocumentForAI c7env "report.pdf").vsFiles = c7env.vsFiles := by
  have h := C7_prepare_duplicate_no_upload c7env "report.pdf" "vs-1"
    { id := "file-9", filename := "report.pdf" } rfl (by decide)
  exact ⟨h.1, h.2.2⟩

/-! ## Claim C8: the LLM gateway (`server/services/llmApiService.ts`) -/

structure LLMServiceConfig where
  baseUrl : String
  apiKey : String
  timeout : Nat
deriving DecidableEq, Repr

/-- The constructor's config: env-var fallbacks for url and key; the
timeout is fixed at 300000 ms (5 minutes) and has no env override. The
exported singleton passes no overrides. -/
def mkLLMConfig (envUrl envKey : Option String) : LLMServiceConfig :=
  { baseUrl := envUrl.getD "https://llm-api-service-vinay2k.replit.app",
    apiKey := envKey.getD "aa123456789bb",
    timeout := 300000 }

structure RequestOptions where
  timeout : Nat
  headers : List (String × String)
deriving DecidableEq, Repr

/-- The request options `makeRequest` attaches to every call. -/
def makeRequestOptions (cfg : LLMServiceConfig) : RequestOptions :=
  { timeout := cfg.timeout,
    headers := [("X-API-Key", cfg.apiKey), ("Content-Type", "application/json")] }

/-- The uniform result shape; payload fields beyond the success flag and
error message are abstracted into one opaque string. -/
structure GatewayResult where
  success : Bool
  error : Option String
  payload : String
deriving DecidableEq, Repr

/-- One HTTP exchange as the adapter observes it: a network failure, or a
response with its ok flag, status code, and a body whose JSON parse may
fail. -/
inductive HttpOutcome where
  | netError (msg : String)
  | reply (ok : Bool) (status : Nat) (body : Except String GatewayResult)
deriving Repr

/-- `makeRequest`: `response.json()` runs before the ok check, and every
failure — network, parse, or non-2xx — is rethrown as
"LLM Service unavailable: ...". -/
def makeRequest (outcome : HttpOutcome) : Except String GatewayResult :=
  match outcome with
  | .netError msg => .error ("LLM Service unavailable: " ++ msg)
  | .reply ok status body =>
    match body with
    | .error msg => .error ("LLM Service unavailable: " ++ msg)
    | .ok data =>
      if ok then .ok data
      else .error ("LLM Service unavailable: LLM Service error (" ++
        toString status ++ "): " ++ (data.error.getD "Unknown error"))

/-- The shared catch wrapping every public method: a thrown error becomes a
`{success: false, error}` result instead of propagating. -/
def gatewayCall (outcome : HttpOutcome) : GatewayResult :=
  match makeRequest outcome with
  | .ok d => d
  | .error msg => { success := false, error := some msg, payload := "" }

/-- `uploadAndVectorize` also reads the file first; a read failure is
caught by the same catch. -/
def uploadAndVectorize (fileRead : Except String String) (outcome : HttpOutcome) :
    GatewayResult :=
  match fileRead with
  | .error e => { success := false, error := some e, payload := "" }
  | .ok _ => gatewayCall outcome

def analyzeDocument (outcome : HttpOutcome) : GatewayResult := gatewayCall outcome

def searchDocuments (outcome : HttpOutcome) : GatewayResult := gatewayCall outcome

def chatCompletion (outcome : HttpOutcome) : GatewayResult := gatewayCall outcome

def documentQA (outcome : HttpOutcome) : GatewayResult := gatewayCall outcome

def summarize (outcome : HttpOutcome) : GatewayResult := gatewayCall outcome

def investmentInsights (outcome : HttpOutcome) : GatewayResult := gatewayCall outcome

/-- An exchange failed: network error, non-2xx, or unparseable body. -/
def outcomeFails : HttpOutcome → Prop
  | .netError _ => True
  | .reply ok _ body => ok = false ∨ ∃ m, body = Except.error m

theorem gatewayCall_fail (o : HttpOutcome) (h : outcomeFails o) :
    (gatewayCall o).success = false ∧ (gatewayCall o).error.isSome = true := by
  cases o with
  | netError msg => exact ⟨rfl, rfl⟩
  | reply ok status body =>
    cases body with
    | error m => exact ⟨rfl, rfl⟩
    | ok d =>
      rcases h with hok | ⟨m, hm⟩
      · subst hok
        exact ⟨rfl, rfl⟩
      · exact Except.noConfusion hm

/-- Claim C8: every public gateway method is a total function of the
exchange it observes (it never throws); on any HTTP failure, non-2xx
response, or malformed body it returns `success = false` with an error
string; and every call carries the 5-minute (300000 ms) timeout and the
X-API-Key header built by `makeRequest`. -/
theorem C8_gateway_uniform_errors (outcome : HttpOutcome)
    (fileRead : Except String String) (hfail : outcomeFails outcome) :
    ((uploadAndVectorize fileRead outcome).success = false ∧
      (uploadAndVectorize fileRead outcome).error.isSome = true) ∧
    ((analyzeDocument outcome).success = false ∧
      (analyzeDocument outcome).error.isSome = true) ∧
    ((searchDocuments outcome).success = false ∧
      (searchDocuments outcome).error.isSome = true) ∧
    ((chatCompletion outcome).success = false ∧
      (chatCompletion outcome).error.isSome = true) ∧
    ((documentQA outcome).success = false ∧
      (documentQA outcome).error.isSome = true) ∧
    ((summarize outcome).success = false ∧
      (summarize outcome).error.isSome = true) ∧
    ((investmentInsights outcome).success = false ∧
      (investmentInsights outcome).error.isSome = true) ∧
    (∀ u k, (mkLLMConfig u k).timeout = 300000) ∧
    (∀ cfg : LLMServiceConfig,
      (makeRequestOptions cfg).timeout = cfg.timeout ∧
      ("X-API-Key", cfg.apiKey) ∈ (makeRequestOptions cfg).headers) := by
  have hg := gatewayCall_fail outcome hfail
  refine ⟨?_, hg, hg, hg, hg, hg, hg, fun u k => rfl, fun cfg => ⟨rfl, ?_⟩⟩
  · cases fileRead with
    | error e => exact ⟨rfl, rfl⟩
    | ok s => exact hg
  · exact List.mem_cons_self _ _

/-- Witness for C8 at a concrete failing exchange (network error). -/
theorem C8_gateway_uniform_errors_witness :
    (chatCompletion (HttpOutcome.netError "ECONNREFUSED")).success = false ∧
    (mkLLMConfig none none).timeout = 300000 :=
  ⟨(C8_gateway_uniform_errors (HttpOutcome.netError "ECONNREFUSED")
      (Except.ok "payload") trivial).2.2.2.1.1,
   (C8_gateway_uniform_errors (HttpOutcome.netError "ECONNREFUSED")
      (Except.ok "payload") trivial).2.2.2.2.2.2.2.1 none none⟩

/-! ## Claim C10: `getEnhancedDashboardStats` (`storage.ts`)

The role lookup and the four request queries are oracle inputs
(`Except`-valued); the aggregation helpers are embedded from the source. -/

structure CashRequest where
  id : Nat
  requesterId : Nat
  amount : Int
  status : String
  createdAt : Nat
deriving DecidableEq, Repr

structure User where
  id : Nat
  role : String
deriving DecidableEq, Repr

/-- A count/value bucket. -/
structure CV where
  count : Nat
  value : Int
deriving DecidableEq, Repr

def zeroCV : CV := { count := 0, value := 0 }

def cvAdd (c : CV) (v : Int) : CV :=
  { count := c.count + 1, value := c.value + v }

structure ProposalStats where
  draft : CV
  pendingManager : CV
  pendingCommittee : CV
  pendingFinance : CV
  approved : CV
  rejected : CV
  total : CV
deriving DecidableEq, Repr

def zeroProposalStats : ProposalStats :=
  { draft := zeroCV, pendingManager := zeroCV, pendingCommittee := zeroCV,
    pendingFinance := zeroCV, approved := zeroCV, rejected := zeroCV,
    total := zeroCV }

structure RiskStats where
  low : CV
  medium : CV
  high : CV
deriving DecidableEq, Repr

structure ValueStats where
  small : CV
  medium : CV
  large : CV
  extraLarge : CV
deriving DecidableEq, Repr

structure DecisionStats where
  urgentApprovals : Nat
  overdueItems : Nat
  avgProcessingTime : Nat
  complianceAlerts : Nat
deriving DecidableEq, Repr

structure EnhancedStats where
  investment : ProposalStats
  cash : ProposalStats
  riskProfile : RiskStats
  valueDistribution : ValueStats
  decisionSupport : DecisionStats
deriving DecidableEq, Repr

/-- `needle` occurs at the head of `haystack`. -/
def listStarts : List Char → List Char → Bool
  | [], _ => true
  | _ :: _, [] => false
  | n :: ns, h :: hs => decide (n = h) && listStarts ns hs

/-- `haystack` has `needle` as a contiguous run (JS `String.includes`). -/
def listHasSub : List Char → List Char → Bool
  | [], ns => ns.isEmpty
  | h :: hs, ns => listStarts ns (h :: hs) || listHasSub hs ns

def strHasSub (s sub : String) : Bool :=
  listHasSub s.toList sub.toList

/-- One step of `processProposalStats`: map a status to its dashboard
bucket and always accumulate into `total`. -/
def classifyProposal (stats : ProposalStats) (sv : String × Int) : ProposalStats :=
  let status := sv.1
  let v := sv.2
  let s1 :=
    if status = "draft" then
      { stats with draft := cvAdd stats.draft v }
    else if status = "pending" ∨ status = "Manager pending" ∨ status = "New" then
      { stats with pendingManager := cvAdd stats.pendingManager v }
    else if status = "Manager approved" ∨ status = "Committee pending" then
      { stats with pendingCommittee := cvAdd stats.pendingCommittee v }
    else if status = "Committee approved" ∨ status = "Finance pending" then
      { stats with pendingFinance := cvAdd stats.pendingFinance v }
    else if status = "approved" then
      { stats with approved := cvAdd stats.approved v }
    else if strHasSub status "rejected" || decide (status = "rejected") then
      { stats with rejected := cvAdd stats.rejected v }
    else stats
  { s1 with total := cvAdd s1.total v }

def processProposalStats (data : List (String × Int)) : ProposalStats :=
  data.foldl classifyProposal zeroProposalStats

def zeroRiskStats : RiskStats :=
  { low := zeroCV, medium := zeroCV, high := zeroCV }

def zeroValueStats : ValueStats :=
  { small := zeroCV, medium := zeroCV, large := zeroCV, extraLarge := zeroCV }

def classifyRisk (stats : RiskStats) (rv : String × Int) : RiskStats :=
  let rl := rv.1.toLower
  if rl = "low" then { stats with low := cvAdd stats.low rv.2 }
  else if rl = "medium" then { stats with medium := cvAdd stats.medium rv.2 }
  else if rl = "high" then { stats with high := cvAdd stats.high rv.2 }
  else stats

def processRiskProfileStats (data : List (String × Int)) : RiskStats :=
  data.foldl classifyRisk zeroRiskStats

def classifyValue (stats : ValueStats) (amount : Int) : ValueStats :=
  if amount ≤ 1000000 then { stats with small := cvAdd stats.small amount }
  else if amount ≤ 5000000 then { stats with medium := cvAdd stats.medium amount }
  else if amount ≤ 10000000 then { stats with large := cvAdd stats.large amount }
  else { stats with extraLarge := cvAdd stats.extraLarge amount }

def processValueDistributionStats (data : List Int) : ValueStats :=
  data.foldl classifyValue zeroValueStats

/-- `getDecisionSupportStats`: constants in the source (dummy data with a
24-hour default average processing time). -/
def getDecisionSupportStats : DecisionStats :=
  { urgentApprovals := 0, overdueItems := 0, avgProcessingTime := 24,
    complianceAlerts := 0 }

/-- The all-zero stats (with `avgProcessingTime` 24) returned on error. -/
def defaultEnhancedStats : EnhancedStats :=
  { investment := zeroProposalStats, cash := zeroProposalStats,
    riskProfile := zeroRiskStats,
    valueDistribution := zeroValueStats,
    decisionSupport := getDecisionSupportStats }

/-- The role lookup and query results one call observes; an `error` value
models the corresponding `await` throwing. -/
structure StatsEnv where
  userResult : Except String (Option User)
  ownInvestments : Except String (List InvestmentRequest)
  allInvestments : Except String (List InvestmentRequest)
  ownCash : Except String (List CashRequest)
  allCash : Except String (List CashRequest)

/-- The four aggregations over the selected (investment, cash) rows. -/
def statsFromData (data : List InvestmentRequest × List CashRequest) : EnhancedStats :=
  { investment := processProposalStats (data.1.map (fun r => (r.status, r.amount))),
    cash := processProposalStats (data.2.map (fun r => (r.status, r.amount))),
    riskProfile := processRiskProfileStats (data.1.map (fun r => (r.riskLevel, r.amount))),
    valueDistribution := processValueDistributionStats (data.1.map (·.amount)),
    decisionSupport := getDecisionSupportStats }

/-- Role-based data selection: analysts see their own rows; everyone else
sees all rows, with drafts dropped unless admin. Each query's failure
aborts the `try` block, earlier queries first. -/
def selectData (env : StatsEnv) (userRole : Option String) :
    Except String (List InvestmentRequest × List CashRequest) :=
  if userRole = some "analyst" then
    match env.ownInvestments with
    | .error e => .error e
    | .ok i =>
      match env.ownCash with
      | .error e => .error e
      | .ok c => .ok (i, c)
  else
    match env.allInvestments with
    | .error e => .error e
    | .ok i =>
      match env.allCash with
      | .error e => .error e
      | .ok c =>
        if userRole ≠ some "admin" then
          .ok (i.filter (fun r => !decide (r.status = "draft")),
            c.filter (fun r => !decide (r.status = "draft")))
        else .ok (i, c)

/-- The body of the `try` block: role lookup, data selection, aggregation. -/
def getEnhancedDashboardStatsTry (env : StatsEnv) : Except String EnhancedStats :=
  match env.userResult with
  | .error e => .error e
  | .ok user => (selectData env (user.map (·.role))).map statsFromData

/-- `getEnhancedDashboardStats`: the catch-all returns the default stats. -/
def getEnhancedDashboardStats (env : StatsEnv) : EnhancedStats :=
  match getEnhancedDashboardStatsTry env with
  | .ok s => s
  | .error _ => defaultEnhancedStats

/-- Claim C10: `getEnhancedDashboardStats` is a total function of what it
observes and never propagates an error: when any underlying lookup fails it
returns the all-zero default (with `avgProcessingTime` 24), and on a
successful run over an empty dataset it returns that same structure — a
database failure is indistinguishable from a dataset with no requests. -/
theorem C10_dashboard_default_on_failure (env : StatsEnv) :
    (∀ e, getEnhancedDashboardStatsTry env = Except.error e →
      getEnhancedDashboardStats env = defaultEnhancedStats) ∧
    (∀ u, env.userResult = Except.ok u →
      env.ownInvestments = Except.ok [] → env.allInvestments = Except.ok [] →
      env.ownCash = Except.ok [] → env.allCash = Except.ok [] →
      getEnhancedDashboardStats env = defaultEnhancedStats) := by
  constructor
  · intro e h
    unfold getEnhancedDashboardStats
    rw [h]
  · intro u hu hoi hai hoc hac
    unfold getEnhancedDashboardStats getEnhancedDashboardStatsTry selectData
    rw [hu, hoi, hai, hoc, hac]
    dsimp only
    by_cases hrole : (u.map (·.role)) = some "analyst"
    · rw [if_pos hrole]
      rfl
    · rw [if_neg hrole]
      by_cases hadmin : (u.map (·.role)) ≠ some "admin"
      · rw [if_pos hadmin]
        rfl
      · rw [if_neg hadmin]
        rfl

/-- Witness for C10: a failed role lookup and an empty dataset both yield
the default stats. -/
theorem C10_dashboard_default_on_failure_witness :
    getEnhancedDashboardStats
      { userResult := Except.error "connection refused",
        ownInvestments := Except.ok [], allInvestments := Except.ok [],
        ownCash := Except.ok [], allCash := Except.ok [] } = defaultEnhancedStats ∧
    getEnhancedDashboardStats
      { userResult := Except.ok (some { id := 1, role := "manager" }),
        ownInvestments := Except.ok [], allInvestments := Except.ok [],
        ownCash := Except.ok [], allCash := Except.ok [] } = defaultEnhancedStats := by
  constructor
  · exact (C10_dashboard_default_on_failure _).1 "connection refused" rfl
  · exact (C10_dashboard_default_on_failure _).2 (some { id := 1, role := "manager" })
      rfl rfl rfl rfl rfl

end EKG
